import Mathlib

/-!
# Verification of the upb streaming protobuf core

Shallow embedding of the upb streaming interfaces (`src/core/upb_stream.h`):
the wire-type constants, tag structure, parse stack frame and parse state,
the inline `upb_check_type` function, and — where the implementation files
(`upb_parse.c`, the stream vtables) are not part of the source tree — models
built faithfully from the specification's description of those operations.
-/

namespace Upb

set_option autoImplicit false

/-! ## Wire types (from the `upb_wire_type` enum in `src/core/upb_stream.h`) -/

def UPB_WIRE_TYPE_VARINT : Nat := 0
def UPB_WIRE_TYPE_64BIT : Nat := 1
def UPB_WIRE_TYPE_DELIMITED : Nat := 2
def UPB_WIRE_TYPE_START_GROUP : Nat := 3
def UPB_WIRE_TYPE_END_GROUP : Nat := 4
def UPB_WIRE_TYPE_32BIT : Nat := 5

/-- A tag occurs before each value on-the-wire
(struct `upb_tag` in `src/core/upb_stream.h`). -/
structure upb_tag where
  field_number : Nat
  wire_type : Nat
deriving DecidableEq, Repr

/-- Status codes of the streaming core (spec §6, "Status surface"). -/
inductive upb_status where
  | OK
  | OUT_OF_MEMORY
  | UNTERMINATED_VARINT
  | BAD_WIRE_TYPE
  | NESTING_OVERFLOW
  | SUBMSG_EXCEEDS_PARENT
  | GROUP_MISMATCH
  | PREMATURE_EOF
deriving DecidableEq, Repr

/-! ## Wire-type compatibility (`upb_check_type`, inline in the header) -/

/-- Modelled from the spec: the `upb_type_info` table (declared `extern` in the
header, defined in the missing `upb_parse.c`) maps each of the 18 declared
protobuf field types to its expected wire type (spec §3 "expected wire type
(derived from declared type)" and §4.D value decoding: varint types → VARINT,
fixed 64/32-bit types → 64BIT/32BIT, string/bytes/message → DELIMITED,
group → START_GROUP).  Field-type numbers are protobuf descriptor numbers:
1=double 2=float 3=int64 4=uint64 5=int32 6=fixed64 7=fixed32 8=bool
9=string 10=group 11=message 12=bytes 13=uint32 14=enum 15=sfixed32
16=sfixed64 17=sint32 18=sint64. -/
def upb_type_info_expected_wire_type (ft : Nat) : Nat :=
  match ft with
  | 1 => UPB_WIRE_TYPE_64BIT      -- double
  | 2 => UPB_WIRE_TYPE_32BIT      -- float
  | 3 => UPB_WIRE_TYPE_VARINT     -- int64
  | 4 => UPB_WIRE_TYPE_VARINT     -- uint64
  | 5 => UPB_WIRE_TYPE_VARINT     -- int32
  | 6 => UPB_WIRE_TYPE_64BIT      -- fixed64
  | 7 => UPB_WIRE_TYPE_32BIT      -- fixed32
  | 8 => UPB_WIRE_TYPE_VARINT     -- bool
  | 9 => UPB_WIRE_TYPE_DELIMITED  -- string
  | 10 => UPB_WIRE_TYPE_START_GROUP -- group
  | 11 => UPB_WIRE_TYPE_DELIMITED -- message
  | 12 => UPB_WIRE_TYPE_DELIMITED -- bytes
  | 13 => UPB_WIRE_TYPE_VARINT    -- uint32
  | 14 => UPB_WIRE_TYPE_VARINT    -- enum
  | 15 => UPB_WIRE_TYPE_32BIT     -- sfixed32
  | 16 => UPB_WIRE_TYPE_64BIT     -- sfixed64
  | 17 => UPB_WIRE_TYPE_VARINT    -- sint32
  | 18 => UPB_WIRE_TYPE_VARINT    -- sint64
  | _ => UPB_WIRE_TYPE_VARINT

/-- Embedding of `upb_check_type` from `src/core/upb_stream.h` (lines
291-299): for field type 10 (GROUP) the wire type must be START_GROUP;
otherwise any DELIMITED wire type is accepted ("With packed arrays, anything
can be delimited (except groups)"), or the wire type must equal the
type's expected wire type. -/
def upb_check_type (wt : Nat) (ft : Nat) : Bool :=
  if ft = 10 then
    wt == UPB_WIRE_TYPE_START_GROUP
  else
    wt == UPB_WIRE_TYPE_DELIMITED ||
      upb_type_info_expected_wire_type ft == wt

example : upb_check_type 0 5 = true := by decide
example : upb_check_type 2 5 = true := by decide
example : upb_check_type 1 5 = false := by decide
example : upb_check_type 3 10 = true := by decide
example : upb_check_type 2 10 = false := by decide

/-! ## Varints

Spec §4.D: "Varints are little-endian base-128, up to 10 bytes; the high bit
is the continuation bit."  A decode can end three ways: a complete varint, an
incomplete one (the buffer ended while the continuation bit was still set),
or an overlong one (more than 10 bytes). -/

inductive VarintResult where
  | ok (value : Nat) (len : Nat)
  | incomplete
  | overlong
deriving DecidableEq, Repr

/-- Modelled from the spec: little-endian base-128 varint decoding
(`upb_get_v_uint64_t` lives in the missing `upb_parse.c`).  `shift` is the
bit position of the next group, `acc` the value so far, `count` the bytes
consumed so far. -/
def decodeVarintAux : List Nat → Nat → Nat → Nat → VarintResult
  | [], _, _, _ => .incomplete
  | b :: rest, shift, acc, count =>
    if count ≥ 10 then .overlong
    else if b % 256 < 128 then .ok (acc + (b % 256) * 2 ^ shift) (count + 1)
    else decodeVarintAux rest (shift + 7) (acc + (b % 256 - 128) * 2 ^ shift) (count + 1)

/-- Decode a varint from the head of `buf`, yielding its value and the number
of bytes consumed. -/
def decode_varint (buf : List Nat) : VarintResult :=
  decodeVarintAux buf 0 0 0

/-- Little-endian base-128 varint encoding, fuel-indexed so it reduces in the
kernel; the fuel only needs to cover the number of 7-bit groups. -/
def encodeVarintAux : Nat → Nat → List Nat
  | 0, n => [n % 128]
  | fuel + 1, n =>
    if n < 128 then [n] else (n % 128 + 128) :: encodeVarintAux fuel (n / 128)

/-- Little-endian base-128 varint encoding (used to build concrete inputs). -/
def encode_varint (n : Nat) : List Nat :=
  encodeVarintAux n n

example : decode_varint [0x96, 0x01] = .ok 150 2 := by decide
example : decode_varint [0x96] = .incomplete := by decide
example : decode_varint [0x08, 0x96] = .ok 8 1 := by decide
example : encode_varint 150 = [0x96, 0x01] := by decide

/-- A successful varint decode consumes at least one byte beyond the bytes
already counted, and no more than the bytes available. -/
theorem decodeVarintAux_len {bs : List Nat} {shift acc count v n : Nat}
    (h : decodeVarintAux bs shift acc count = .ok v n) :
    count < n ∧ n ≤ count + bs.length := by
  induction bs generalizing shift acc count with
  | nil => simp [decodeVarintAux] at h
  | cons b rest ih =>
    rw [decodeVarintAux] at h
    by_cases hc : count ≥ 10
    · rw [if_pos hc] at h
      exact absurd h (by simp)
    rw [if_neg hc] at h
    by_cases hb : b % 256 < 128
    · rw [if_pos hb] at h
      injection h with h1 h2
      simp only [List.length_cons]
      omega
    · rw [if_neg hb] at h
      have := ih h
      simp only [List.length_cons]
      omega

/-- A successful varint decode of `buf` consumes between 1 and `buf.length`
bytes. -/
theorem decode_varint_len {buf : List Nat} {v n : Nat}
    (h : decode_varint buf = .ok v n) : 1 ≤ n ∧ n ≤ buf.length := by
  have := decodeVarintAux_len h
  omega

/-! ## The callback parser (spec §4.E, header `upb_parse.h` part of
`src/core/upb_stream.h`)

The struct declarations (`upb_parse_stack_frame`, `upb_parse_state`) are in
the header; the body of `upb_parse` lives in `upb_parse.c`, which is not part
of the source tree, so the parsing loop is modelled from the spec. -/

/-- Each stack frame (one for each level of submessages/groups): from struct
`upb_parse_stack_frame` in the header; "0 indicates that this is a group".
The opaque `user_data` flexible array member is not modelled. -/
structure upb_parse_stack_frame where
  end_offset : Nat
deriving DecidableEq, Repr

/-- The frame pushed on entering a group: the `end_offset = 0` sentinel. -/
def groupFrame : upb_parse_stack_frame := ⟨0⟩

/-- The frame pushed on entering a length-delimited submessage whose payload
starts at `content_start` and has `len` bytes. -/
def submsgFrame (content_start len : Nat) : upb_parse_stack_frame :=
  ⟨content_start + len⟩

/-- Modelled from the spec (§6, configuration knobs): maximum submessage
nesting depth, default 64 (the `UPB_MAX_NESTING` constant lives in the
missing `upb.h`). -/
def UPB_MAX_NESTING : Nat := 64

/-- The parse state (struct `upb_parse_state` in the header): current byte
offset and the submessage stack.  The callbacks and the per-frame user-data
size are parameters of the model rather than stored fields. -/
structure upb_parse_state where
  offset : Nat
  stack : List upb_parse_stack_frame
deriving DecidableEq, Repr

/-- One callback invocation, in the order the callbacks fire (spec §4.E):
`tag_cb`, `value_cb` (once per value, several per tag for packed arrays),
`str_cb`, `submsg_start_cb` / `submsg_end_cb`.  A `submsgStart` records
whether the entered frame is a group and the frame's `end_offset`. -/
inductive ParseEvent where
  | tagEv (t : upb_tag)
  | valueEv (v : Nat)
  | strEv (len : Nat)
  | submsgStart (isGroup : Bool) (end_offset : Nat)
  | submsgEnd
deriving DecidableEq, Repr

/-- The outcome of one call to `upb_parse`: the status, the number of bytes
consumed (`*read`), the callback events fired, and the final stack. -/
structure ParseResult where
  status : upb_status
  read : Nat
  events : List ParseEvent
  stack : List upb_parse_stack_frame
deriving DecidableEq, Repr

/-- Little-endian interpretation of a fixed-width byte list (spec §4.D:
"read fixed little-endian bytes"). -/
def leNat (bs : List Nat) : Nat :=
  bs.foldr (fun b acc => b % 256 + 256 * acc) 0

/-- Modelled from the spec (§4.D): "for packed primitive, iterate value decode
until the sub-range is exhausted."  Decodes consecutive base values of field
type `ft` out of `bytes`, returning each value with the number of bytes it
consumed; `none` when the sub-range does not split exactly into values. -/
def packedLoop : Nat → Nat → List Nat → Option (List (Nat × Nat))
  | _, _, [] => some []
  | 0, _, _ :: _ => none
  | fuel + 1, ft, b :: bs =>
    if upb_type_info_expected_wire_type ft = UPB_WIRE_TYPE_VARINT then
      match decode_varint (b :: bs) with
      | .ok v n => (packedLoop fuel ft ((b :: bs).drop n)).map (fun l => (v, n) :: l)
      | _ => none
    else if upb_type_info_expected_wire_type ft = UPB_WIRE_TYPE_64BIT then
      if (b :: bs).length < 8 then none
      else (packedLoop fuel ft ((b :: bs).drop 8)).map
        (fun l => (leNat ((b :: bs).take 8), 8) :: l)
    else if upb_type_info_expected_wire_type ft = UPB_WIRE_TYPE_32BIT then
      if (b :: bs).length < 4 then none
      else (packedLoop fuel ft ((b :: bs).drop 4)).map
        (fun l => (leNat ((b :: bs).take 4), 4) :: l)
    else none

/-- Does the top frame bound the current submessage and has the cursor
reached that bound?  (Spec §4.D, submessage exit.) -/
def popFrame (s : upb_parse_state) : Bool :=
  match s.stack with
  | [] => false
  | f :: _ => f.end_offset != 0 && decide (f.end_offset ≤ s.offset)

/-- Would a submessage ending at `content_end` run past the innermost
bounded frame?  (Spec §4.D failure `SUBMSG_EXCEEDS_PARENT`.) -/
def exceedsParent (stack : List upb_parse_stack_frame) (content_end : Nat) : Bool :=
  match stack with
  | [] => false
  | f :: _ => f.end_offset != 0 && decide (f.end_offset < content_end)

/-- The action one iteration of the parse loop takes: stop with a status, or
consume `d` bytes, optionally push a frame, optionally pop the top frame, and
fire `newEvs` (in chronological order). -/
inductive StepAction where
  | done (st : upb_status)
  | next (d : Nat) (push : Option upb_parse_stack_frame) (pop : Bool)
      (newEvs : List ParseEvent)
deriving DecidableEq, Repr

/-- One `VARINT` value after its tag (spec §4.D).  A varint truncated by the
buffer end suspends with `OK` so the caller may feed more bytes, unless the
end is true end-of-stream, where it is `UNTERMINATED_VARINT` (spec §8
scenario 6). -/
def stepVarintValue (showVal : Bool) (eof : Bool) (tag : upb_tag)
    (rem1 : List Nat) : StepAction :=
  match decode_varint rem1 with
  | .incomplete => .done (if eof then .UNTERMINATED_VARINT else .OK)
  | .overlong => .done .UNTERMINATED_VARINT
  | .ok v vlen =>
    .next vlen none false (.tagEv tag :: (if showVal then [.valueEv v] else []))

/-- One fixed-width (`64BIT`/`32BIT`) value after its tag: `w` bytes,
little-endian (spec §4.D). -/
def stepFixedValue (w : Nat) (showVal : Bool) (eof : Bool) (tag : upb_tag)
    (rem1 : List Nat) : StepAction :=
  if rem1.length < w then .done (if eof then .PREMATURE_EOF else .OK)
  else .next w none false
    (.tagEv tag :: (if showVal then [.valueEv (leNat (rem1.take w))] else []))

/-- Entering a group: push the `end_offset = 0` sentinel frame unless the
nesting limit is reached (spec §4.D `START_GROUP`). -/
def stepGroupStart (stack : List upb_parse_stack_frame) (tag : upb_tag) :
    StepAction :=
  if UPB_MAX_NESTING ≤ stack.length then .done .NESTING_OVERFLOW
  else .next 0 (some groupFrame) false [.tagEv tag, .submsgStart true 0]

/-- Leaving a group: only legal when the top frame is a group frame
(spec §4.D `END_GROUP`). -/
def stepGroupEnd (stack : List upb_parse_stack_frame) (tag : upb_tag) :
    StepAction :=
  match stack with
  | g :: _ =>
    if g.end_offset = 0 then .next 0 none true [.tagEv tag, .submsgEnd]
    else .done .GROUP_MISMATCH
  | [] => .done .GROUP_MISMATCH

/-- A `DELIMITED` element after its tag: length varint, then a submessage
push, a string, a skip, or a packed-primitive run (spec §4.D).  `pos` is the
byte offset just after the tag. -/
def stepDelimited (ft : Nat) (eof : Bool) (stack : List upb_parse_stack_frame)
    (pos : Nat) (tag : upb_tag) (rem1 : List Nat) : StepAction :=
  match decode_varint rem1 with
  | .incomplete => .done (if eof then .UNTERMINATED_VARINT else .OK)
  | .overlong => .done .UNTERMINATED_VARINT
  | .ok dlen llen =>
    if ft = 11 then
      if exceedsParent stack (pos + llen + dlen) then .done .SUBMSG_EXCEEDS_PARENT
      else if UPB_MAX_NESTING ≤ stack.length then .done .NESTING_OVERFLOW
      else .next llen (some (submsgFrame (pos + llen) dlen)) false
        [.tagEv tag, .submsgStart false (pos + llen + dlen)]
    else if (rem1.drop llen).length < dlen then
      .done (if eof then .PREMATURE_EOF else .OK)
    else if ft = 9 ∨ ft = 12 then
      .next (llen + dlen) none false [.tagEv tag, .strEv dlen]
    else if ft = 0 then
      .next (llen + dlen) none false [.tagEv tag]
    else
      match packedLoop dlen ft ((rem1.drop llen).take dlen) with
      | some vals => .next (llen + dlen) none false
          (.tagEv tag :: vals.map (fun p => ParseEvent.valueEv p.1))
      | none => .done .UNTERMINATED_VARINT

/-- Account for the `tlen` tag bytes in front of a value action. -/
def addTagLen (tlen : Nat) : StepAction → StepAction
  | .done st => .done st
  | .next d push pop newEvs => .next (tlen + d) push pop newEvs

/-- Modelled from the spec (§4.D value decoding, §4.E callback protocol):
one iteration of the `upb_parse` loop (the loop body of the missing
`upb_parse.c`).  `cb` is the client's `tag_cb` (returning the declared field
type, 0 to skip); `eof` states whether the buffer end is true end-of-stream;
`rem` is the unconsumed tail of the buffer.  An element that extends past
the end of the buffer is not consumed: the parser suspends so the caller may
feed more bytes. -/
def parseStep (cb : upb_tag → Nat) (eof : Bool) (s : upb_parse_state)
    (rem : List Nat) : StepAction :=
  if popFrame s then .next 0 none true [.submsgEnd]
  else match rem with
  | [] => .done .OK
  | _ :: _ =>
    match decode_varint rem with
    | .incomplete => .done (if eof then .UNTERMINATED_VARINT else .OK)
    | .overlong => .done .UNTERMINATED_VARINT
    | .ok tv tlen =>
      addTagLen tlen
        (if tv % 8 = UPB_WIRE_TYPE_VARINT then
          stepVarintValue (cb ⟨tv / 8, tv % 8⟩ != 0) eof ⟨tv / 8, tv % 8⟩ (rem.drop tlen)
        else if tv % 8 = UPB_WIRE_TYPE_64BIT then
          stepFixedValue 8 (cb ⟨tv / 8, tv % 8⟩ != 0) eof ⟨tv / 8, tv % 8⟩ (rem.drop tlen)
        else if tv % 8 = UPB_WIRE_TYPE_32BIT then
          stepFixedValue 4 (cb ⟨tv / 8, tv % 8⟩ != 0) eof ⟨tv / 8, tv % 8⟩ (rem.drop tlen)
        else if tv % 8 = UPB_WIRE_TYPE_START_GROUP then
          stepGroupStart s.stack ⟨tv / 8, tv % 8⟩
        else if tv % 8 = UPB_WIRE_TYPE_END_GROUP then
          stepGroupEnd s.stack ⟨tv / 8, tv % 8⟩
        else if tv % 8 = UPB_WIRE_TYPE_DELIMITED then
          stepDelimited (cb ⟨tv / 8, tv % 8⟩) eof s.stack (s.offset + tlen)
            ⟨tv / 8, tv % 8⟩ (rem.drop tlen)
        else .done .BAD_WIRE_TYPE)

/-- Assemble a `ParseResult` at the current state (events were accumulated in
reverse). -/
def finishResult (st : upb_status) (s : upb_parse_state)
    (evs : List ParseEvent) : ParseResult :=
  ⟨st, s.offset, evs.reverse, s.stack⟩

/-- Apply a step's frame effects to the stack: pop the top frame and/or push
a new one. -/
def advanceStack (push : Option upb_parse_stack_frame) (pop : Bool)
    (stack : List upb_parse_stack_frame) : List upb_parse_stack_frame :=
  match push with
  | some f => f :: (if pop then stack.tail else stack)
  | none => if pop then stack.tail else stack

/-- Modelled from the spec: the fuel-indexed main loop of `upb_parse`
(`upb_parse.c` is missing from the source tree).  Repeats `parseStep` until
it reports `done`; the fuel only needs to dominate the number of wire
elements plus frame pops. -/
def parseLoop (cb : upb_tag → Nat) (eof : Bool) :
    Nat → upb_parse_state → List Nat → List ParseEvent → ParseResult
  | 0, s, _, evs => finishResult .OK s evs
  | fuel + 1, s, rem, evs =>
    match parseStep cb eof s rem with
    | .done st => finishResult st s evs
    | .next d push pop newEvs =>
      parseLoop cb eof fuel ⟨s.offset + d, advanceStack push pop s.stack⟩
        (rem.drop d) (newEvs.reverse ++ evs)

/-- Modelled from the spec: `upb_parse(s, buf, len, &read)` — parse up to
`buf.length` bytes, returning the status, the byte count consumed, the
callback events, and the final submessage stack.  `eof` says whether the end
of `buf` is true end-of-stream (spec §8 scenario 6 distinguishes the two). -/
def upb_parse (cb : upb_tag → Nat) (eof : Bool) (buf : List Nat) : ParseResult :=
  parseLoop cb eof (2 * buf.length + 2) ⟨0, []⟩ buf []

example : upb_parse (fun _ => 5) false [0x08, 0x96, 0x01] =
    ⟨.OK, 3, [.tagEv ⟨1, 0⟩, .valueEv 150], []⟩ := by decide

example : upb_parse (fun _ => 9) false [0x0A, 0x05, 0x68, 0x65, 0x6C, 0x6C, 0x6F] =
    ⟨.OK, 7, [.tagEv ⟨1, 2⟩, .strEv 5], []⟩ := by decide

example : upb_parse (fun _ => 5) false [0x13, 0x08, 0x2A, 0x14] =
    ⟨.OK, 4, [.tagEv ⟨2, 3⟩, .submsgStart true 0, .tagEv ⟨1, 0⟩, .valueEv 42,
              .tagEv ⟨2, 4⟩, .submsgEnd], []⟩ := by decide

example : upb_parse (fun t => if t.field_number = 3 then 11 else 5) false
    [0x1A, 0x03, 0x08, 0x96, 0x01] =
    ⟨.OK, 5, [.tagEv ⟨3, 2⟩, .submsgStart false 5, .tagEv ⟨1, 0⟩, .valueEv 150,
              .submsgEnd], []⟩ := by decide

example : upb_parse (fun _ => 5) false [0x22, 0x06, 0x03, 0x8E, 0x02, 0x9E, 0xA7, 0x05] =
    ⟨.OK, 8, [.tagEv ⟨4, 2⟩, .valueEv 3, .valueEv 270, .valueEv 86942], []⟩ := by decide

/-- `n` nested length-delimited submessages on field 1, innermost empty
(spec §8 scenario 7's pathological input). -/
def mkNested : Nat → List Nat
  | 0 => []
  | n + 1 => 0x0A :: encode_varint (mkNested n).length ++ mkNested n

example : mkNested 2 = [0x0A, 0x02, 0x0A, 0x00] := by decide

/-! ### Parse-step invariants -/

/-- Destructure `addTagLen` on a `next` outcome. -/
theorem addTagLen_next {t : Nat} {a : StepAction} {d : Nat}
    {p : Option upb_parse_stack_frame} {po : Bool} {e : List ParseEvent}
    (h : addTagLen t a = .next d p po e) :
    ∃ d0, a = .next d0 p po e ∧ d = t + d0 := by
  cases a with
  | done st => simp [addTagLen] at h
  | next d0 p0 po0 e0 =>
    simp only [addTagLen] at h
    cases h
    exact ⟨d0, rfl, rfl⟩

/-- A committed varint value fits in the buffer, pushes nothing, and fires no
submessage-start event. -/
theorem stepVarintValue_next {showVal eof : Bool} {tag : upb_tag}
    {rem1 : List Nat} {d : Nat} {push : Option upb_parse_stack_frame}
    {pop : Bool} {newEvs : List ParseEvent}
    (h : stepVarintValue showVal eof tag rem1 = .next d push pop newEvs) :
    d ≤ rem1.length ∧ push = none ∧
      ∀ g off, ParseEvent.submsgStart g off ∉ newEvs := by
  unfold stepVarintValue at h
  split at h
  · simp at h
  · simp at h
  rename_i v vlen hval
  have hvl := decode_varint_len hval
  cases h
  refine ⟨by omega, rfl, ?_⟩
  intro g off hmem
  rcases List.mem_cons.mp hmem with h1 | h1
  · simp at h1
  · split at h1 <;> simp at h1

/-- A committed fixed-width value fits in the buffer, pushes nothing, and
fires no submessage-start event. -/
theorem stepFixedValue_next {w : Nat} {showVal eof : Bool} {tag : upb_tag}
    {rem1 : List Nat} {d : Nat} {push : Option upb_parse_stack_frame}
    {pop : Bool} {newEvs : List ParseEvent}
    (h : stepFixedValue w showVal eof tag rem1 = .next d push pop newEvs) :
    d ≤ rem1.length ∧ push = none ∧
      ∀ g off, ParseEvent.submsgStart g off ∉ newEvs := by
  unfold stepFixedValue at h
  split at h
  · simp at h
  rename_i hlen
  cases h
  refine ⟨by omega, rfl, ?_⟩
  intro g off hmem
  rcases List.mem_cons.mp hmem with h1 | h1
  · simp at h1
  · split at h1 <;> simp at h1

/-- A committed group entry consumes nothing beyond the tag, pushes exactly
the sentinel group frame, and announces it. -/
theorem stepGroupStart_next {stack : List upb_parse_stack_frame}
    {tag : upb_tag} {d : Nat} {push : Option upb_parse_stack_frame}
    {pop : Bool} {newEvs : List ParseEvent}
    (h : stepGroupStart stack tag = .next d push pop newEvs) :
    d = 0 ∧ push = some groupFrame ∧
      newEvs = [.tagEv tag, .submsgStart true 0] := by
  unfold stepGroupStart at h
  split at h
  · simp at h
  cases h
  exact ⟨rfl, rfl, rfl⟩

/-- A committed group exit consumes nothing beyond the tag, pushes nothing,
and fires no submessage-start event. -/
theorem stepGroupEnd_next {stack : List upb_parse_stack_frame}
    {tag : upb_tag} {d : Nat} {push : Option upb_parse_stack_frame}
    {pop : Bool} {newEvs : List ParseEvent}
    (h : stepGroupEnd stack tag = .next d push pop newEvs) :
    d = 0 ∧ push = none ∧ newEvs = [.tagEv tag, .submsgEnd] := by
  unfold stepGroupEnd at h
  split at h
  · split at h
    · cases h
      exact ⟨rfl, rfl, rfl⟩
    · simp at h
  · simp at h

/-- A committed delimited element fits in the buffer; any submessage-start
event it fires is a non-group one whose end offset lies strictly past `pos`;
and any frame it pushes is announced by such an event carrying the frame's
`end_offset`. -/
theorem stepDelimited_next {ft : Nat} {eof : Bool}
    {stack : List upb_parse_stack_frame} {pos : Nat} {tag : upb_tag}
    {rem1 : List Nat} {d : Nat} {push : Option upb_parse_stack_frame}
    {pop : Bool} {newEvs : List ParseEvent}
    (h : stepDelimited ft eof stack pos tag rem1 = .next d push pop newEvs) :
    d ≤ rem1.length ∧
      (∀ g off, ParseEvent.submsgStart g off ∈ newEvs →
        g = false ∧ pos + 1 ≤ off) ∧
      (∀ f, push = some f →
        ParseEvent.submsgStart false f.end_offset ∈ newEvs ∧
          pos + 1 ≤ f.end_offset) := by
  unfold stepDelimited at h
  split at h
  · simp at h
  · simp at h
  rename_i dlen llen hlenv
  have hll := decode_varint_len hlenv
  split at h
  · -- submessage push
    split at h
    · simp at h
    split at h
    · simp at h
    cases h
    refine ⟨by omega, ?_, ?_⟩
    · intro g off hmem
      simp only [List.mem_cons, List.mem_singleton] at hmem
      rcases hmem with h1 | h1 | h1
      · simp at h1
      · injection h1 with hg hoff
        exact ⟨hg, by omega⟩
      · simp at h1
    · intro f hf
      injection hf with hf
      subst hf
      simp only [submsgFrame]
      exact ⟨by simp, by omega⟩
  split at h
  · simp at h
  rename_i hfit
  rw [List.length_drop] at hfit
  split at h
  · -- string/bytes
    cases h
    refine ⟨by omega, ?_, ?_⟩
    · intro g off hmem
      simp only [List.mem_cons, List.mem_singleton] at hmem
      rcases hmem with h1 | h1 | h1 <;> simp at h1
    · intro f hf
      simp at hf
  split at h
  · -- skipped value
    cases h
    refine ⟨by omega, ?_, ?_⟩
    · intro g off hmem
      simp only [List.mem_singleton] at hmem
      simp at hmem
    · intro f hf
      simp at hf
  · -- packed primitives
    split at h
    · cases h
      refine ⟨by omega, ?_, ?_⟩
      · intro g off hmem
        rcases List.mem_cons.mp hmem with h1 | h1
        · simp at h1
        · simp only [List.mem_map] at h1
          obtain ⟨p, _, hp⟩ := h1
          simp at hp
      · intro f hf
        simp at hf
    · simp at h

/-- Any bytes a step consumes were available in the buffer. -/
theorem parseStep_next_le {cb : upb_tag → Nat} {eof : Bool}
    {s : upb_parse_state} {rem : List Nat} {d : Nat}
    {push : Option upb_parse_stack_frame} {pop : Bool} {newEvs : List ParseEvent}
    (h : parseStep cb eof s rem = .next d push pop newEvs) : d ≤ rem.length := by
  unfold parseStep at h
  split at h
  · cases h
    exact Nat.zero_le _
  split at h
  · simp at h
  split at h
  · simp at h
  · simp at h
  rename_i tv tlen htag
  have htl := decode_varint_len htag
  obtain ⟨d0, hinner, hd⟩ := addTagLen_next h
  subst hd
  split at hinner
  · have := (stepVarintValue_next hinner).1
    rw [List.length_drop] at this
    omega
  split at hinner
  · have := (stepFixedValue_next hinner).1
    rw [List.length_drop] at this
    omega
  split at hinner
  · have := (stepFixedValue_next hinner).1
    rw [List.length_drop] at this
    omega
  split at hinner
  · have := (stepGroupStart_next hinner).1
    omega
  split at hinner
  · have := (stepGroupEnd_next hinner).1
    omega
  split at hinner
  · have := (stepDelimited_next hinner).1
    rw [List.length_drop] at this
    omega
  · simp at hinner

/-- Every `submsgStart` event a step fires marks a group if and only if its
recorded end offset is the 0 sentinel. -/
theorem parseStep_next_submsgStart {cb : upb_tag → Nat} {eof : Bool}
    {s : upb_parse_state} {rem : List Nat} {d : Nat}
    {push : Option upb_parse_stack_frame} {pop : Bool} {newEvs : List ParseEvent}
    {g : Bool} {off : Nat}
    (h : parseStep cb eof s rem = .next d push pop newEvs)
    (hmem : ParseEvent.submsgStart g off ∈ newEvs) : g = true ↔ off = 0 := by
  unfold parseStep at h
  split at h
  · cases h
    simp at hmem
  split at h
  · simp at h
  split at h
  · simp at h
  · simp at h
  rename_i tv tlen htag
  have htl := decode_varint_len htag
  obtain ⟨d0, hinner, hd⟩ := addTagLen_next h
  split at hinner
  · exact absurd hmem ((stepVarintValue_next hinner).2.2 g off)
  split at hinner
  · exact absurd hmem ((stepFixedValue_next hinner).2.2 g off)
  split at hinner
  · exact absurd hmem ((stepFixedValue_next hinner).2.2 g off)
  split at hinner
  · obtain ⟨-, -, hevs⟩ := stepGroupStart_next hinner
    subst hevs
    simp only [List.mem_cons, List.mem_singleton] at hmem
    rcases hmem with h1 | h1 | h1
    · simp at h1
    · injection h1 with hg hoff
      subst hg
      subst hoff
      simp
    · simp at h1
  split at hinner
  · obtain ⟨-, -, hevs⟩ := stepGroupEnd_next hinner
    subst hevs
    simp only [List.mem_cons, List.mem_singleton] at hmem
    rcases hmem with h1 | h1 | h1 <;> simp at h1
  split at hinner
  · obtain ⟨hgf, hoff⟩ := (stepDelimited_next hinner).2.1 g off hmem
    subst hgf
    constructor
    · intro hfalse
      simp at hfalse
    · intro hzero
      omega
  · simp at hinner

/-- Every frame a step pushes is announced by a `submsgStart` event carrying
the frame's `end_offset`, with the group flag exactly when that offset is the
0 sentinel. -/
theorem parseStep_next_push {cb : upb_tag → Nat} {eof : Bool}
    {s : upb_parse_state} {rem : List Nat} {d : Nat}
    {f : upb_parse_stack_frame} {pop : Bool} {newEvs : List ParseEvent}
    (h : parseStep cb eof s rem = .next d (some f) pop newEvs) :
    ParseEvent.submsgStart (f.end_offset == 0) f.end_offset ∈ newEvs := by
  unfold parseStep at h
  split at h
  · simp at h
  split at h
  · simp at h
  split at h
  · simp at h
  · simp at h
  rename_i tv tlen htag
  obtain ⟨d0, hinner, hd⟩ := addTagLen_next h
  split at hinner
  · exact absurd (stepVarintValue_next hinner).2.1 (by simp)
  split at hinner
  · exact absurd (stepFixedValue_next hinner).2.1 (by simp)
  split at hinner
  · exact absurd (stepFixedValue_next hinner).2.1 (by simp)
  split at hinner
  · obtain ⟨-, hpush, hevs⟩ := stepGroupStart_next hinner
    injection hpush with hpush
    subst hpush
    subst hevs
    simp [groupFrame]
  split at hinner
  · exact absurd (stepGroupEnd_next hinner).2.1 (by simp)
  split at hinner
  · obtain ⟨hev, hpos⟩ := (stepDelimited_next hinner).2.2 f rfl
    have : (f.end_offset == 0) = false := by
      simp only [beq_eq_false_iff_ne, ne_eq]
      omega
    rw [this]
    exact hev
  · simp at hinner

/-! ### Loop invariants -/

/-- The byte cursor never decreases: the read count returned by the loop is
at least the offset the loop started from. -/
theorem parseLoop_read_lb (cb : upb_tag → Nat) (eof : Bool) :
    ∀ (fuel : Nat) (s : upb_parse_state) (rem : List Nat) (evs : List ParseEvent),
      s.offset ≤ (parseLoop cb eof fuel s rem evs).read := by
  intro fuel
  induction fuel with
  | zero =>
    intro s rem evs
    exact Nat.le_refl _
  | succ n ih =>
    intro s rem evs
    cases hstep : parseStep cb eof s rem with
    | done st =>
      simp only [parseLoop, hstep, finishResult]
      exact Nat.le_refl _
    | next d push pop newEvs =>
      simp only [parseLoop, hstep]
      exact le_trans (Nat.le_add_right s.offset d)
        (ih ⟨s.offset + d, advanceStack push pop s.stack⟩
          (rem.drop d) (newEvs.reverse ++ evs))

/-- The read count returned by the loop never exceeds the bytes that were
available. -/
theorem parseLoop_read_ub (cb : upb_tag → Nat) (eof : Bool) :
    ∀ (fuel : Nat) (s : upb_parse_state) (rem : List Nat) (evs : List ParseEvent),
      (parseLoop cb eof fuel s rem evs).read ≤ s.offset + rem.length := by
  intro fuel
  induction fuel with
  | zero =>
    intro s rem evs
    exact Nat.le_add_right _ _
  | succ n ih =>
    intro s rem evs
    cases hstep : parseStep cb eof s rem with
    | done st =>
      simp only [parseLoop, hstep, finishResult]
      exact Nat.le_add_right _ _
    | next d push pop newEvs =>
      have hle := parseStep_next_le hstep
      simp only [parseLoop, hstep]
      refine le_trans (ih _ _ _) ?_
      simp only [List.length_drop]
      omega

/-- Every `submsgStart` event the loop ever fires marks a group exactly when
its end offset is the 0 sentinel (given the same holds of the accumulated
events). -/
theorem parseLoop_submsgStart (cb : upb_tag → Nat) (eof : Bool) :
    ∀ (fuel : Nat) (s : upb_parse_state) (rem : List Nat) (evs : List ParseEvent),
      (∀ g off, ParseEvent.submsgStart g off ∈ evs → (g = true ↔ off = 0)) →
      ∀ g off,
        ParseEvent.submsgStart g off ∈ (parseLoop cb eof fuel s rem evs).events →
        (g = true ↔ off = 0) := by
  intro fuel
  induction fuel with
  | zero =>
    intro s rem evs hevs g off hmem
    simp only [parseLoop, finishResult] at hmem
    exact hevs g off (List.mem_reverse.mp hmem)
  | succ n ih =>
    intro s rem evs hevs g off hmem
    cases hstep : parseStep cb eof s rem with
    | done st =>
      simp only [parseLoop, hstep, finishResult] at hmem
      exact hevs g off (List.mem_reverse.mp hmem)
    | next d push pop newEvs =>
      simp only [parseLoop, hstep] at hmem
      refine ih _ _ _ ?_ g off hmem
      intro g2 off2 h2
      rcases List.mem_append.mp h2 with h3 | h3
      · exact parseStep_next_submsgStart hstep (List.mem_reverse.mp h3)
      · exact hevs g2 off2 h3

/-- The per-element byte counts of a successful packed decode sum exactly to
the length of the packed sub-range (spec §8: "the sum of consumed bytes over
its value callbacks equals the declared delimiter length"). -/
theorem packedLoop_sum :
    ∀ (fuel ft : Nat) (bytes : List Nat) (l : List (Nat × Nat)),
      packedLoop fuel ft bytes = some l → (l.map Prod.snd).sum = bytes.length := by
  intro fuel
  induction fuel with
  | zero =>
    intro ft bytes l h
    cases bytes with
    | nil =>
      simp only [packedLoop, Option.some.injEq] at h
      subst h
      simp
    | cons b bs => simp [packedLoop] at h
  | succ n ih =>
    intro ft bytes l h
    cases bytes with
    | nil =>
      simp only [packedLoop, Option.some.injEq] at h
      subst h
      simp
    | cons b bs =>
      rw [packedLoop] at h
      split at h
      · split at h
        · rename_i v vn hval
          rcases Option.map_eq_some'.mp h with ⟨l0, hl0, rfl⟩
          have hsum := ih ft _ l0 hl0
          have hlen := decode_varint_len hval
          simp only [List.length_drop] at hsum
          simp only [List.map_cons, List.sum_cons, hsum, List.length_cons]
          simp only [List.length_cons] at hlen
          omega
        · simp at h
      split at h
      · split at h
        · simp at h
        rename_i hfit
        rcases Option.map_eq_some'.mp h with ⟨l0, hl0, rfl⟩
        have hsum := ih ft _ l0 hl0
        simp only [List.length_drop] at hsum
        simp only [List.map_cons, List.sum_cons, hsum, List.length_cons]
        simp only [not_lt, List.length_cons] at hfit
        omega
      split at h
      · split at h
        · simp at h
        rename_i hfit
        rcases Option.map_eq_some'.mp h with ⟨l0, hl0, rfl⟩
        have hsum := ih ft _ l0 hl0
        simp only [List.length_drop] at hsum
        simp only [List.map_cons, List.sum_cons, hsum, List.length_cons]
        simp only [not_lt, List.length_cons] at hfit
        omega
      · simp at h

/-! ## Claim theorems for the wire decoder / callback parser -/

/-- C1, counterexample: it is not the case that `upb_check_type` accepts a
wire-type mismatch only for primitive-repeated (packed) fields.  The check
receives no label/packedness information at all: wire type `DELIMITED` (2)
is accepted for declared type `int32` (5) — whose expected wire type is
`VARINT` — independently of any packed flag, in particular for a non-packed
field (`packed = false`). -/
theorem upb_check_type_packed_only_fails :
    ¬ (∀ (wt ft : Nat) (packed : Bool), upb_check_type wt ft = true →
        wt = upb_type_info_expected_wire_type ft ∨
          (wt = UPB_WIRE_TYPE_DELIMITED ∧ packed = true)) := by
  intro h
  rcases h 2 5 false (by decide) with h1 | ⟨-, h2⟩
  · exact absurd h1 (by decide)
  · exact Bool.false_ne_true h2

/-- C1, amended: after tag decode, `upb_check_type` accepts exactly the
expected wire type of the declared field type or (for any non-group field,
regardless of label/packedness) the `DELIMITED` wire type; a field of
declared type group (10) accepts exactly `START_GROUP`. -/
theorem upb_check_type_spec :
    ∀ (wt ft : Nat), 1 ≤ ft → ft ≤ 18 →
      (upb_check_type wt ft = true ↔
        ((ft = 10 ∧ wt = UPB_WIRE_TYPE_START_GROUP) ∨
         (ft ≠ 10 ∧ (wt = upb_type_info_expected_wire_type ft ∨
                     wt = UPB_WIRE_TYPE_DELIMITED)))) := by
  intro wt ft h1 h18
  interval_cases ft <;>
    simp [upb_check_type, upb_type_info_expected_wire_type,
      UPB_WIRE_TYPE_VARINT, UPB_WIRE_TYPE_64BIT, UPB_WIRE_TYPE_DELIMITED,
      UPB_WIRE_TYPE_START_GROUP, UPB_WIRE_TYPE_32BIT] <;>
    omega

/-- C1 witness: the amended characterisation applied at wire type
`START_GROUP` (3) and field type group (10). -/
theorem upb_check_type_spec_witness : upb_check_type 3 10 = true :=
  (upb_check_type_spec 3 10 (by decide) (by decide)).mpr
    (Or.inl ⟨rfl, rfl⟩)

/-- C2: `upb_parse` is resumable.  On the input `08 96` — whose second byte
has the continuation bit set, so the value varint of field 1 is incomplete —
it consumes 0 bytes and returns success when more data may come, for any
`tag_cb`; at true end-of-stream the same input yields `UNTERMINATED_VARINT`.
When a complete element precedes the truncated one
(`08 96 01 08 96`), exactly the bytes of the complete elements (3) are
consumed, again with success. -/
theorem upb_parse_resumable :
    (∀ cb, upb_parse cb false [0x08, 0x96] = ⟨.OK, 0, [], []⟩) ∧
    (∀ cb, upb_parse cb true [0x08, 0x96] = ⟨.UNTERMINATED_VARINT, 0, [], []⟩) ∧
    upb_parse (fun _ => 5) false [0x08, 0x96, 0x01, 0x08, 0x96] =
      ⟨.OK, 3, [.tagEv ⟨1, 0⟩, .valueEv 150], []⟩ :=
  ⟨fun _ => rfl, fun _ => rfl, by decide⟩

/-- C4: the group-frame sentinel invariant.  The frame pushed on
`START_GROUP` has `end_offset = 0`; the frame pushed on entering a
length-delimited submessage has `end_offset = content start + length`;
every frame a parse step pushes is announced by a `submsgStart` event whose
group flag is set exactly when the frame's `end_offset` is 0; and over any
run of `upb_parse`, a `submsgStart` event marks a group if and only if its
recorded end offset is the 0 sentinel. -/
theorem group_frame_sentinel :
    groupFrame.end_offset = 0 ∧
    (∀ p l, (submsgFrame p l).end_offset = p + l) ∧
    (∀ (cb : upb_tag → Nat) (eof : Bool) (s : upb_parse_state) (rem : List Nat)
        (d : Nat) (f : upb_parse_stack_frame) (pop : Bool)
        (newEvs : List ParseEvent),
      parseStep cb eof s rem = StepAction.next d (some f) pop newEvs →
      ParseEvent.submsgStart (f.end_offset == 0) f.end_offset ∈ newEvs) ∧
    (∀ (cb : upb_tag → Nat) (eof : Bool) (buf : List Nat) (g : Bool) (off : Nat),
      ParseEvent.submsgStart g off ∈ (upb_parse cb eof buf).events →
      (g = true ↔ off = 0)) := by
  refine ⟨rfl, fun p l => rfl, ?_, ?_⟩
  · intro cb eof s rem d f pop newEvs h
    exact parseStep_next_push h
  · intro cb eof buf g off hmem
    exact parseLoop_submsgStart cb eof _ _ _ _ (by simp) g off hmem

/-- C4 witness: in the group scenario `13 08 2A 14` (field 2 is a group),
entering the group fires `submsgStart` with the group flag and end offset 0,
and the sentinel equivalence holds there. -/
theorem group_frame_sentinel_witness :
    (true = true ↔ (0 : Nat) = 0) ∧
    ParseEvent.submsgStart true 0 ∈
      (upb_parse (fun _ => 5) false [0x13, 0x08, 0x2A, 0x14]).events :=
  ⟨group_frame_sentinel.2.2.2 (fun _ => 5) false [0x13, 0x08, 0x2A, 0x14]
      true 0 (by decide), by decide⟩

/-- C5: packed-value callback cardinality.  Over any successful packed
decode, the per-element consumed byte counts sum exactly to the delimiter
length; and on spec §8 scenario 4 (`22 06 03 8E 02 9E A7 05`, field 4 a
packed `int32`), one `tag_cb` is followed by exactly three `value_cb`
invocations delivering 3, 270 and 86942. -/
theorem packed_value_callbacks :
    (∀ (fuel ft : Nat) (bytes : List Nat) (l : List (Nat × Nat)),
      packedLoop fuel ft bytes = some l → (l.map Prod.snd).sum = bytes.length) ∧
    (upb_parse (fun _ => 5) false
        [0x22, 0x06, 0x03, 0x8E, 0x02, 0x9E, 0xA7, 0x05]).events =
      [.tagEv ⟨4, 2⟩, .valueEv 3, .valueEv 270, .valueEv 86942] :=
  ⟨packedLoop_sum, by decide⟩

/-- C5 witness: the packed sub-range of scenario 4 decodes to three values
whose consumed byte counts (1 + 2 + 3) sum to the delimiter length 6. -/
theorem packed_value_callbacks_witness :
    (([(3, 1), (270, 2), (86942, 3)] : List (Nat × Nat)).map Prod.snd).sum =
        ([0x03, 0x8E, 0x02, 0x9E, 0xA7, 0x05] : List Nat).length ∧
    packedLoop 6 5 [0x03, 0x8E, 0x02, 0x9E, 0xA7, 0x05] =
        some [(3, 1), (270, 2), (86942, 3)] :=
  ⟨packed_value_callbacks.1 6 5 _ _ (by decide), by decide⟩

/-- C6: cursor monotonicity and boundedness.  At every suspension point (any
return of the loop) the cursor is at least where it started and at most the
end of the supplied bytes; consequently the bytes-consumed count returned by
`upb_parse` is at most `len`. -/
theorem cursor_monotonic_bounded :
    (∀ (cb : upb_tag → Nat) (eof : Bool) (fuel : Nat) (s : upb_parse_state)
        (rem : List Nat) (evs : List ParseEvent),
      s.offset ≤ (parseLoop cb eof fuel s rem evs).read) ∧
    (∀ (cb : upb_tag → Nat) (eof : Bool) (fuel : Nat) (s : upb_parse_state)
        (rem : List Nat) (evs : List ParseEvent),
      (parseLoop cb eof fuel s rem evs).read ≤ s.offset + rem.length) ∧
    (∀ (cb : upb_tag → Nat) (eof : Bool) (buf : List Nat),
      (upb_parse cb eof buf).read ≤ buf.length) := by
  refine ⟨parseLoop_read_lb, parseLoop_read_ub, ?_⟩
  intro cb eof buf
  have h := parseLoop_read_ub cb eof (2 * buf.length + 2) ⟨0, []⟩ buf []
  simpa [upb_parse] using h

set_option maxRecDepth 40000 in
/-- C7: nesting depth limit.  With the default maximum nesting depth of 64,
the pathological input of 65 nested length-delimited submessages fails with
`NESTING_OVERFLOW`, while 64 nested submessages parse to completion without
error. -/
theorem nesting_overflow_at_65 :
    UPB_MAX_NESTING = 64 ∧
    (upb_parse (fun _ => 11) false (mkNested 65)).status = .NESTING_OVERFLOW ∧
    (upb_parse (fun _ => 11) false (mkNested 64)).status = .OK := by
  refine ⟨rfl, by decide, by decide⟩

/-! ## The `upb_src` pull interface (spec §4.C; `src/core/upb_stream.h`
lines 36-103)

The header declares `upb_src_getdef`, `upb_src_getval`, `upb_src_getstr`,
`upb_src_endmsg`, `upb_src_eof` and their contracts in comments; the vtable
machinery (`upb_stream_vtbl.h`) and the decoder implementing the interface
are not part of the source tree, so the stream state is modelled from the
spec. -/

/-- The part of a field descriptor visible through the src interface
(`struct _upb_fielddef` is only forward-declared in the header). -/
structure upb_fielddef where
  number : Nat
  ftype : Nat
deriving DecidableEq, Repr

/-- A value a src can deliver: numeric (via `upb_src_getval`) or a byte
string (via `upb_src_getstr`). -/
inductive SrcVal where
  | num (v : Nat)
  | str (bytes : List Nat)
deriving DecidableEq, Repr

/-- A byte string handle (spec §3: pointer, length, capacity, reference
count; only length and reference count matter to the contracts modelled
here). -/
structure upb_string where
  len : Nat
  refcount : Nat
deriving DecidableEq, Repr

/-- Spec §4.A: `recycle` "resets length to 0 and refcount to 1"; a
newly-recycled string is one in that state. -/
def upb_string_newly_recycled (str : upb_string) : Bool :=
  str.len == 0 && str.refcount == 1

/-- Modelled from the spec: the state of a `upb_src` pull stream (the
concrete decoder implementing the vtable is missing from the source tree).
`scopes` is the stack of submessage scopes, innermost first, each listing
the fields remaining to be delivered; `status` and `eof` are the header's
status/eof pair; `pending` holds the value made current by the most recent
`upb_src_getdef`. -/
structure upb_src where
  scopes : List (List (upb_fielddef × SrcVal))
  status : upb_status
  eof : Bool
  pending : Option (upb_fielddef × SrcVal)
deriving DecidableEq, Repr

def upb_src_eof (src : upb_src) : Bool := src.eof

def upb_src_status (src : upb_src) : upb_status := src.status

/-- Modelled from the spec: `upb_src_getdef` returns the fielddef for the
next field, or `none` on error or end-of-stream (which "can simply mean end
of submessage").  A read that fails because the current scope is exhausted
sets the `eof` flag — only then does `eof` become observable (C `feof`
semantics). -/
def upb_src_getdef (src : upb_src) : Option upb_fielddef × upb_src :=
  if src.status ≠ .OK then (none, src)
  else match src.scopes with
  | [] => (none, { src with eof := true })
  | [] :: _ => (none, { src with eof := true })
  | ((f, v) :: items) :: outer =>
    (some f, { src with scopes := items :: outer, pending := some (f, v) })

/-- Modelled from the spec: `upb_src_endmsg` stops reading the current
submessage (skipping its remainder) and resets the `eof` marker (header:
"If a stream is eof but we are inside a submessage, calling
upb_src_endmsg(src) will reset the eof marker."). -/
def upb_src_endmsg (src : upb_src) : upb_src :=
  { src with scopes := src.scopes.tail, eof := false, pending := none }

/-- Modelled from the spec: `upb_src_getstr` fetches the string value
following the most recent `getdef`.  The header requires `str` to be a
newly-recycled string; the call succeeds only then, delivering the bytes
into the recycled handle. -/
def upb_src_getstr (src : upb_src) (str : upb_string) :
    Option (upb_string × upb_src) :=
  if ¬ upb_string_newly_recycled str then none
  else match src.pending with
  | some (_, SrcVal.str bytes) =>
    some (⟨bytes.length, 1⟩, { src with pending := none })
  | _ => none

/-- Modelled from the spec: `upb_src_getval` fetches the numeric value
following the most recent `getdef`. -/
def upb_src_getval (src : upb_src) : Option (Nat × upb_src) :=
  match src.pending with
  | some (_, SrcVal.num v) => some (v, { src with pending := none })
  | _ => none

/-! ## The `upb_bytesink` push interface (spec §4.C;
`src/core/upb_stream.h` lines 138-145) -/

/-- Modelled from the spec: the state a `upb_bytesink` exposes through
`upb_bytesink_put` — how many bytes it can accept right now, and whether it
is in an error state (the vtable implementations are missing from the source
tree). -/
structure upb_bytesink where
  capacity : Nat
  fail : Bool
deriving DecidableEq, Repr

/-- Modelled from the spec: `upb_bytesink_put` "returns the number of bytes
that were actually consumed, which may be fewer than were in the string, or
<0 on error". -/
def upb_bytesink_put (sink : upb_bytesink) (str : upb_string) : Int :=
  if sink.fail then -1 else Int.ofNat (min str.len sink.capacity)

/-! ## Claim theorems for the stream interfaces -/

/-- C3: `eof` semantics of a src.  A successful `getdef` never changes the
`eof` flag; a `getdef` that fails at end-of-stream (with `OK` status) sets
it; the flag cannot be used predictively — there is a stream with
`eof = false` whose very next read fails; and `endmsg` always clears the
`eof` flag. -/
theorem upb_src_eof_semantics :
    (∀ (s s2 : upb_src) (f : upb_fielddef),
      upb_src_getdef s = (some f, s2) → upb_src_eof s2 = upb_src_eof s) ∧
    (∀ s : upb_src, upb_src_status s = .OK → (upb_src_getdef s).1 = none →
      upb_src_eof (upb_src_getdef s).2 = true) ∧
    (∃ s : upb_src, upb_src_eof s = false ∧ (upb_src_getdef s).1 = none) ∧
    (∀ s : upb_src, upb_src_eof (upb_src_endmsg s) = false) := by
  refine ⟨?_, ?_, ?_, fun s => rfl⟩
  · intro s s2 f h
    unfold upb_src_getdef at h
    split at h
    · simp at h
    split at h
    · simp at h
    · simp at h
    · injection h with h1 h2
      subst h2
      rfl
  · intro s hok hnone
    have hst : ¬ s.status ≠ upb_status.OK := by
      simp only [upb_src_status] at hok
      simp [hok]
    unfold upb_src_getdef at hnone ⊢
    rw [if_neg hst] at hnone ⊢
    rcases hsc : s.scopes with _ | ⟨hd, tl⟩
    · rfl
    · rcases hd with _ | ⟨⟨f, v⟩, items⟩
      · rfl
      · rw [hsc] at hnone
        exact absurd hnone (by simp)
  · exact ⟨⟨[], .OK, false, none⟩, rfl, rfl⟩

/-- C3 witness: on a stream with one pending int32 field, `getdef` succeeds
and leaves the `eof` flag as it was. -/
theorem upb_src_eof_semantics_witness :
    upb_src_eof (⟨[[]], .OK, false, some (⟨1, 5⟩, SrcVal.num 7)⟩ : upb_src) =
      upb_src_eof (⟨[[(⟨1, 5⟩, SrcVal.num 7)]], .OK, false, none⟩ : upb_src) :=
  upb_src_eof_semantics.1 ⟨[[(⟨1, 5⟩, SrcVal.num 7)]], .OK, false, none⟩
    ⟨[[]], .OK, false, some (⟨1, 5⟩, SrcVal.num 7)⟩ ⟨1, 5⟩ (by decide)

/-- C8: the return value of `upb_src_getdef` alone cannot distinguish
failure from end of stream.  There are two streams — one in an error state,
one healthy but at the end of its current submessage — on which `getdef`
returns `none` alike; only the attached status object (`≠ OK` vs `OK`) or
the `eof` flag set by the failing read tell them apart. -/
theorem upb_src_getdef_null_ambiguous :
    ∃ s1 s2 : upb_src,
      (upb_src_getdef s1).1 = none ∧ (upb_src_getdef s2).1 = none ∧
      upb_src_status s1 ≠ .OK ∧ upb_src_eof (upb_src_getdef s1).2 = false ∧
      upb_src_status s2 = .OK ∧ upb_src_eof (upb_src_getdef s2).2 = true ∧
      s2.scopes ≠ [] := by
  refine ⟨⟨[[(⟨1, 5⟩, SrcVal.num 7)]], .UNTERMINATED_VARINT, false, none⟩,
          ⟨[[], [(⟨2, 5⟩, SrcVal.num 8)]], .OK, false, none⟩,
          ?_, ?_, ?_, ?_, ?_, ?_, ?_⟩ <;> decide

/-- C9: preconditions of the value-fetching operations.  Every successful
`getstr` was passed a newly-recycled string (length 0, refcount 1) and had a
value pending from the most recent `getdef`; every successful `getval`
likewise had a value pending from the most recent `getdef`; after either
fetch the pending value is consumed, so a second `getval` or `getstr`
without an intervening `getdef` fails; `getdef` is what makes a value
pending; and `endmsg` clears any pending value. -/
theorem upb_src_getstr_precondition :
    (∀ (s : upb_src) (str : upb_string) (r : upb_string × upb_src),
      upb_src_getstr s str = some r →
      upb_string_newly_recycled str = true ∧ s.pending.isSome = true) ∧
    (∀ (s : upb_src) (str str2 : upb_string) (r : upb_string × upb_src),
      upb_src_getstr s str = some r → upb_src_getstr r.2 str2 = none) ∧
    (∀ (s : upb_src) (r : Nat × upb_src),
      upb_src_getval s = some r → s.pending.isSome = true) ∧
    (∀ (s : upb_src) (r : Nat × upb_src),
      upb_src_getval s = some r →
      upb_src_getval r.2 = none ∧ ∀ str2, upb_src_getstr r.2 str2 = none) ∧
    (∀ (s s2 : upb_src) (f : upb_fielddef),
      upb_src_getdef s = (some f, s2) → s2.pending.isSome = true) ∧
    (∀ s : upb_src, (upb_src_endmsg s).pending = none) := by
  refine ⟨?_, ?_, ?_, ?_, ?_, fun s => rfl⟩
  · intro s str r h
    unfold upb_src_getstr at h
    split at h
    · simp at h
    rename_i hrec
    split at h
    · rename_i f bytes hpend
      rw [hpend]
      exact ⟨by simpa using hrec, rfl⟩
    · simp at h
  · intro s str str2 r h
    unfold upb_src_getstr at h
    split at h
    · simp at h
    split at h
    · rename_i f bytes hpend
      injection h with h2
      subst h2
      unfold upb_src_getstr
      split
      · rfl
      · rfl
    · simp at h
  · intro s r h
    unfold upb_src_getval at h
    split at h
    · rename_i f v hpend
      rw [hpend]
      rfl
    · simp at h
  · intro s r h
    unfold upb_src_getval at h
    split at h
    · rename_i f v hpend
      injection h with h2
      subst h2
      refine ⟨rfl, fun str2 => ?_⟩
      unfold upb_src_getstr
      split
      · rfl
      · rfl
    · simp at h
  · intro s s2 f h
    unfold upb_src_getdef at h
    split at h
    · simp at h
    split at h
    · simp at h
    · simp at h
    · injection h with h1 h2
      subst h2
      rfl

/-- C9 witness: a `getstr` on a newly-recycled string (length 0, refcount 1)
with a string value pending succeeds, and the precondition indeed held. -/
theorem upb_src_getstr_precondition_witness :
    upb_string_newly_recycled ⟨0, 1⟩ = true ∧
      (⟨[], .OK, false, some (⟨1, 9⟩, SrcVal.str [0x68, 0x69])⟩ :
        upb_src).pending.isSome = true :=
  upb_src_getstr_precondition.1
    ⟨[], .OK, false, some (⟨1, 9⟩, SrcVal.str [0x68, 0x69])⟩ ⟨0, 1⟩
    (⟨2, 1⟩, ⟨[], .OK, false, none⟩) (by decide)

/-- C10: error encoding of `upb_bytesink_put`.  The operation returns the
number of bytes actually consumed — possibly fewer than the string held but
never more — and a negative value exactly on error: a failing sink returns
a value `< 0`, a healthy sink returns `0 ≤ r ≤ str.len`, and a non-negative
return implies the sink was not in error. -/
theorem upb_bytesink_put_error_encoding :
    (∀ (sink : upb_bytesink) (str : upb_string),
      sink.fail = true → upb_bytesink_put sink str < 0) ∧
    (∀ (sink : upb_bytesink) (str : upb_string),
      sink.fail = false →
        0 ≤ upb_bytesink_put sink str ∧
          upb_bytesink_put sink str ≤ (str.len : Int)) ∧
    (∀ (sink : upb_bytesink) (str : upb_string),
      0 ≤ upb_bytesink_put sink str → sink.fail = false) := by
  refine ⟨?_, ?_, ?_⟩
  · intro sink str h
    simp [upb_bytesink_put, h]
  · intro sink str h
    simp only [upb_bytesink_put, h, if_false, Int.ofNat_eq_coe, Bool.false_eq_true]
    constructor
    · exact Int.natCast_nonneg _
    · exact_mod_cast Nat.min_le_left _ _
  · intro sink str h
    cases hf : sink.fail
    · rfl
    · simp [upb_bytesink_put, hf] at h

/-- C10 witness: a healthy sink with capacity 5 consumes all 3 bytes of a
3-byte string — a non-negative return bounded by the string length. -/
theorem upb_bytesink_put_error_encoding_witness :
    0 ≤ upb_bytesink_put ⟨5, false⟩ ⟨3, 1⟩ ∧
      upb_bytesink_put ⟨5, false⟩ ⟨3, 1⟩ ≤ ((⟨3, 1⟩ : upb_string).len : Int) :=
  upb_bytesink_put_error_encoding.2.1 ⟨5, false⟩ ⟨3, 1⟩ rfl

end Upb

